import Mathlib

/-!
Verification of the ideavisualmap server core: credential vault
(AES-256-GCM key storage), LLM response normalization, geometric node
layout, and the graph-mutation layer (nodes, edges, mind maps, API keys).

Shallow embedding conventions:
* Go byte slices are `List Nat` whose elements are below 256.
* Go strings used as identifiers are Lean `String`; raw LLM text that is
  scanned character by character is `List Char`.
* `float64` coordinates are modelled as `ℚ` (all constants in the layout
  code are exactly representable).
* The SQL store is an explicit record of row lists; an UPDATE touches every
  row matching its WHERE clause and reports the number of affected rows.
* Calls into `crypto/cipher` (GCM seal/open) and `encoding/json`
  (unmarshalling into `[]map[string]interface{}`) are opaque library
  functions; they are parameters of the embedding, while everything the
  repository itself does around them (key normalization, nonce handling,
  base64, bracket extraction, fallback tiers) is implemented concretely.
* Database/network faults are injected through a Boolean oracle indexed by
  the statement counter.
-/

deriving instance DecidableEq for Except

namespace IdeaVisualMap

/-! ### Base64 (model of Go `encoding/base64` StdEncoding) -/

def b64alphabet : List Char :=
  String.toList "ABCDEFGHIJKLMNOPQRSTUVWXYZabcdefghijklmnopqrstuvwxyz0123456789+/"

/-- Character for a 6-bit group. -/
def b64char (n : Nat) : Char := b64alphabet.getD n 'A'

/-- Decode one base64 character back to its 6-bit value. -/
def b64dig (c : Char) : Option Nat := b64alphabet.findIdx? (· = c)

/-- Standard base64 encoding of a byte sequence, with `=` padding. -/
def encB64 : List Nat → List Char
  | [] => []
  | [a] => [b64char (a / 4), b64char (a % 4 * 16), '=', '=']
  | [a, b] => [b64char (a / 4), b64char (a % 4 * 16 + b / 16), b64char (b % 16 * 4), '=']
  | a :: b :: c :: rest =>
    b64char (a / 4) :: b64char (a % 4 * 16 + b / 16) :: b64char (b % 16 * 4 + c / 64) ::
      b64char (c % 64) :: encB64 rest

/-- Standard base64 decoding; `none` models Go's `CorruptInputError`. -/
def decB64 : List Char → Option (List Nat)
  | [] => some []
  | w :: x :: y :: z :: rest =>
    match b64dig w, b64dig x with
    | some p, some q =>
      if y = '=' then
        if z = '=' ∧ rest = [] then some [p * 4 + q / 16] else none
      else
        match b64dig y with
        | some r =>
          if z = '=' then
            if rest = [] then some [p * 4 + q / 16, q % 16 * 16 + r / 4] else none
          else
            match b64dig z with
            | some s =>
              match decB64 rest with
              | some bs =>
                some ((p * 4 + q / 16) :: (q % 16 * 16 + r / 4) :: (r % 4 * 64 + s) :: bs)
              | none => none
            | none => none
        | none => none
    | _, _ => none
  | _ => none

theorem b64dig_b64char : ∀ n < 64, b64dig (b64char n) = some n := by decide

theorem b64char_ne_pad : ∀ n < 64, b64char n ≠ '=' := by decide

theorem decB64_encB64 (l : List Nat) (h : ∀ b ∈ l, b < 256) :
    decB64 (encB64 l) = some l := by
  induction l using encB64.induct with
  | case1 => rfl
  | case2 a =>
    have ha : a < 256 := h a (by simp)
    simp [encB64, decB64, b64dig_b64char _ (show a / 4 < 64 by omega),
      b64dig_b64char _ (show a % 4 * 16 < 64 by omega)]
    omega
  | case3 a b =>
    have ha : a < 256 := h a (by simp)
    have hb : b < 256 := h b (by simp)
    simp [encB64, decB64, b64dig_b64char _ (show a / 4 < 64 by omega),
      b64dig_b64char _ (show a % 4 * 16 + b / 16 < 64 by omega),
      b64dig_b64char _ (show b % 16 * 4 < 64 by omega),
      b64char_ne_pad _ (show b % 16 * 4 < 64 by omega)]
    omega
  | case4 a b c rest ih =>
    have ha : a < 256 := h a (by simp)
    have hb : b < 256 := h b (by simp)
    have hc : c < 256 := h c (by simp)
    have hrest : ∀ x ∈ rest, x < 256 := fun x hx => h x (by simp [hx])
    simp [encB64, decB64, b64dig_b64char _ (show a / 4 < 64 by omega),
      b64dig_b64char _ (show a % 4 * 16 + b / 16 < 64 by omega),
      b64dig_b64char _ (show b % 16 * 4 + c / 64 < 64 by omega),
      b64dig_b64char _ (show c % 64 < 64 by omega),
      b64char_ne_pad _ (show b % 16 * 4 + c / 64 < 64 by omega),
      b64char_ne_pad _ (show c % 64 < 64 by omega), ih hrest]
    omega

/-! ### Credential vault (`api_key_db.go`)

`GCMScheme` stands for the `cipher.AEAD` obtained from
`cipher.NewGCM(aes.NewCipher(key))`: `seal key nonce plaintext` is the
tag-carrying ciphertext produced by `gcm.Seal` (excluding the nonce the
caller prepends), and `openC key nonce ct` is `gcm.Open`, `none` on an
authentication failure. -/

structure GCMScheme where
  sealFn : List Nat → List Nat → List Nat → List Nat
  openFn : List Nat → List Nat → List Nat → Option (List Nat)

/-- `gcm.NonceSize()` for AES-GCM. -/
def gcmNonceSize : Nat := 12

/-- Key normalization in `encryptAPIKey`/`decryptAPIKey`: zero-pad the
configured secret to 32 bytes when shorter, truncate when longer. -/
def normalizeEncryptionKey (secret : List Nat) : List Nat :=
  if secret.length < 32 then secret ++ List.replicate (32 - secret.length) 0
  else if secret.length > 32 then secret.take 32
  else secret

/-- `encryptAPIKey`: normalize the secret, seal with a fresh nonce (the
nonce is a parameter here, drawn from `crypto/rand` in the source), prepend
the nonce, base64-encode. -/
def encryptAPIKey (g : GCMScheme) (secret nonce plaintext : List Nat) : List Char :=
  encB64 (nonce ++ g.sealFn (normalizeEncryptionKey secret) nonce plaintext)

/-- `decryptAPIKey`: normalize the secret the same way, base64-decode,
reject data shorter than the nonce, split nonce from ciphertext, open. -/
def decryptAPIKey (g : GCMScheme) (secret : List Nat) (ciphertext : List Char) :
    Option (List Nat) :=
  match decB64 ciphertext with
  | none => none
  | some data =>
    if data.length < gcmNonceSize then none
    else g.openFn (normalizeEncryptionKey secret) (data.take gcmNonceSize)
      (data.drop gcmNonceSize)

/-- A degenerate AEAD used to instantiate round-trip witnesses. -/
def plainGCM : GCMScheme where
  sealFn := fun _ _ p => p
  openFn := fun _ _ c => some c

/-- `GenerateIdeas`: the requested count defaults to 5 when non-positive and
is capped at 10. -/
def clampCount (c : Int) : Int :=
  let c1 := if c ≤ 0 then 5 else c
  if c1 > 10 then 10 else c1

end IdeaVisualMap

namespace IdeaVisualMap

/-- C2: decrypting the result of encrypting any plaintext under any
configured secret returns the plaintext. The secret is normalized the same
way (zero-pad to 32 bytes / truncate) on both sides, the fresh nonce is
prepended to the GCM ciphertext, and the stored value is the base64
encoding, which decryption reverses. The hypotheses state that the GCM
seal/open pair taken from `crypto/cipher` is a correct AEAD at the values
used: sealing emits bytes and opening a sealed value recovers the
plaintext. -/
theorem decrypt_encrypt_roundtrip (g : GCMScheme) (secret nonce pt : List Nat)
    (hn : nonce.length = gcmNonceSize)
    (hnb : ∀ b ∈ nonce, b < 256)
    (hsb : ∀ b ∈ g.sealFn (normalizeEncryptionKey secret) nonce pt, b < 256)
    (ho : g.openFn (normalizeEncryptionKey secret) nonce
        (g.sealFn (normalizeEncryptionKey secret) nonce pt) = some pt) :
    decryptAPIKey g secret (encryptAPIKey g secret nonce pt) = some pt := by
  have hall : ∀ b ∈ nonce ++ g.sealFn (normalizeEncryptionKey secret) nonce pt, b < 256 := by
    intro b hb
    rcases List.mem_append.mp hb with h1 | h2
    · exact hnb b h1
    · exact hsb b h2
  have hlen : ¬ (nonce ++ g.sealFn (normalizeEncryptionKey secret) nonce pt).length
      < gcmNonceSize := by
    simp [List.length_append, hn]
  simp only [encryptAPIKey, decryptAPIKey, decB64_encB64 _ hall]
  rw [if_neg hlen, List.take_left' hn, List.drop_left' hn, ho]

/-- Witness for C2 at the secret "s", an all-zero 12-byte nonce and the
plaintext bytes of "hi", with the identity AEAD. -/
theorem decrypt_encrypt_roundtrip_witness :
    decryptAPIKey plainGCM [115]
      (encryptAPIKey plainGCM [115] (List.replicate 12 0) [104, 105]) = some [104, 105] :=
  decrypt_encrypt_roundtrip plainGCM [115] (List.replicate 12 0) [104, 105]
    (by decide) (by decide) (by decide) rfl

/-! ### Data model (`models/*.go`) and relational store

Rows live in lists; a SQL UPDATE rewrites every row matching its WHERE
clause and reports the number of affected rows. Timestamps and the
schema-level ON DELETE cascades are not modelled; no claim concerns them. -/

/-- The SQL literal for an empty JSON object. -/
def emptyObj : String := "\x7b\x7d"

structure MindMapRec where
  id : String
  userId : String
  title : String
  description : String
  isPublic : Bool
  status : String
deriving DecidableEq

structure NodeRec where
  id : String
  mindMapId : String
  parentId : Option String
  content : String
  positionX : ℚ
  positionY : ℚ
  nodeType : String
  styleData : String
  metadata : String
deriving DecidableEq

structure EdgeRec where
  id : String
  mindMapId : String
  sourceId : String
  targetId : String
  edgeType : String
  styleData : String
deriving DecidableEq

structure APIKeyRec where
  id : String
  userId : String
  service : String
  encryptedKey : String
  isActive : Bool
deriving DecidableEq

structure Store where
  mindMaps : List MindMapRec
  nodes : List NodeRec
  edges : List EdgeRec
  apiKeys : List APIKeyRec
deriving DecidableEq

structure NodeUpdateRequest where
  content : String
  positionX : ℚ
  positionY : ℚ
  nodeType : String
  styleData : Option String
  metadata : Option String
deriving DecidableEq

structure MindMapUpdateRequest where
  title : String
  description : String
  isPublic : Bool
  status : String
deriving DecidableEq

structure NodePositionUpdateRequest where
  id : String
  positionX : ℚ
  positionY : ℚ
deriving DecidableEq

structure APIKeyUpdateRequest where
  key : String
  isActive : Bool
deriving DecidableEq

/-- `GetMindMapByID`: `WHERE id = $1 AND status != 'deleted'`. -/
def dbGetMindMapByID (s : Store) (id : String) : Option MindMapRec :=
  s.mindMaps.find? fun m => m.id == id && m.status != "deleted"

/-- `GetNodeByID`. -/
def dbGetNodeByID (s : Store) (id : String) : Option NodeRec :=
  s.nodes.find? fun n => n.id == id

/-- `GetEdgeByID`. -/
def dbGetEdgeByID (s : Store) (id : String) : Option EdgeRec :=
  s.edges.find? fun e => e.id == id

/-- `GetNodesByMindMapID`. -/
def dbGetNodesByMindMapID (s : Store) (mindMapId : String) : List NodeRec :=
  s.nodes.filter fun n => n.mindMapId == mindMapId

/-- The row effect of `UpdateNode`'s SQL:
`content = COALESCE(NULLIF($2, ''), content)`, positions are passed as NULL
when the request value is exactly 0 (the Go wrapper), `node_type` like
`content`, and the JSON blobs are NULL (no change) when the request
carries none. -/
def applyNodeUpdate (req : NodeUpdateRequest) (n : NodeRec) : NodeRec :=
  { n with
    content := if req.content = "" then n.content else req.content
    positionX := if req.positionX = 0 then n.positionX else req.positionX
    positionY := if req.positionY = 0 then n.positionY else req.positionY
    nodeType := if req.nodeType = "" then n.nodeType else req.nodeType
    styleData := req.styleData.getD n.styleData
    metadata := req.metadata.getD n.metadata }

/-- `UpdateNode`: run the UPDATE, then report "node not found" when zero
rows were affected. -/
def dbUpdateNode (s : Store) (id : String) (req : NodeUpdateRequest) : Except String Store :=
  if (s.nodes.countP fun n => n.id == id) = 0 then .error "node not found"
  else .ok { s with nodes := s.nodes.map fun n => if n.id == id then applyNodeUpdate req n else n }

/-- The row effect of `UpdateMindMap`'s SQL: title/description/status
coalesce empty strings to the stored value, while `is_public = $4` is
written unconditionally. -/
def applyMindMapUpdate (req : MindMapUpdateRequest) (m : MindMapRec) : MindMapRec :=
  { m with
    title := if req.title = "" then m.title else req.title
    description := if req.description = "" then m.description else req.description
    isPublic := req.isPublic
    status := if req.status = "" then m.status else req.status }

/-- `UpdateMindMap`: `WHERE id = $1 AND status != 'deleted'`, error when no
row matched. -/
def dbUpdateMindMap (s : Store) (id : String) (req : MindMapUpdateRequest) :
    Except String Store :=
  if (s.mindMaps.countP fun m => m.id == id && m.status != "deleted") = 0 then
    .error "mind map not found or already deleted"
  else
    .ok { s with mindMaps := s.mindMaps.map fun m =>
      if m.id == id && m.status != "deleted" then applyMindMapUpdate req m else m }

/-- `DeleteNode`: physical row delete, "node not found" on zero rows. -/
def dbDeleteNode (s : Store) (id : String) : Except String Store :=
  if (s.nodes.countP fun n => n.id == id) = 0 then .error "node not found"
  else .ok { s with nodes := s.nodes.filter fun n => n.id != id }

/-- `DeleteEdge`: physical row delete, "edge not found" on zero rows. -/
def dbDeleteEdge (s : Store) (id : String) : Except String Store :=
  if (s.edges.countP fun e => e.id == id) = 0 then .error "edge not found"
  else .ok { s with edges := s.edges.filter fun e => e.id != id }

/-- One UPDATE of `BatchUpdateNodePositions`: set the position of every
node whose id matches; a nonexistent id simply affects zero rows. -/
def applyPos (s : Store) (p : NodePositionUpdateRequest) : Store :=
  { s with nodes := s.nodes.map fun n =>
      if n.id == p.id then { n with positionX := p.positionX, positionY := p.positionY } else n }

/-- The statement loop inside the transaction of `BatchUpdateNodePositions`;
`oracle i` injects a transport-level failure of the i-th `stmt.Exec`. -/
def batchLoop (oracle : Nat → Bool) : Store → Nat → List NodePositionUpdateRequest →
    Except String Store
  | w, _, [] => .ok w
  | w, i, p :: rest =>
    if oracle i then .error "exec failed" else batchLoop oracle (applyPos w p) (i + 1) rest

/-- `BatchUpdateNodePositions`: all statements run inside one transaction;
an error rolls the whole batch back (the returned store is the caller's),
otherwise the transaction commits. Result: (visible store, error). -/
def dbBatchUpdateNodePositions (oracle : Nat → Bool) (s : Store)
    (ps : List NodePositionUpdateRequest) : Store × Option String :=
  match batchLoop oracle s 0 ps with
  | .ok w => (w, none)
  | .error e => (s, some e)

/-- `UpdateAPIKey` (`enc` is the `encryptAPIKey` closure over the configured
secret): require the key row to exist, re-encrypt and store the key material
only when the request's key is non-empty, then write `is_active`
unconditionally; `user_id` and `service` are never touched. -/
def dbUpdateAPIKey (enc : String → String) (s : Store) (id : String)
    (req : APIKeyUpdateRequest) : Except String Store :=
  match s.apiKeys.find? (fun k => k.id == id) with
  | none => .error "API key not found"
  | some _ =>
    let s1 := if req.key ≠ "" then
        { s with apiKeys := s.apiKeys.map fun k =>
            if k.id == id then { k with encryptedKey := enc req.key } else k }
      else s
    .ok { s1 with apiKeys := s1.apiKeys.map fun k =>
        if k.id == id then { k with isActive := req.isActive } else k }

/-- Claim-level description of a committed batch: a node listed in the
batch ends at its last listed position, every other node is untouched; an
id without a matching row has no effect. -/
def applyLastListed (ps : List NodePositionUpdateRequest) (n : NodeRec) : NodeRec :=
  match ps.reverse.find? (fun p => n.id == p.id) with
  | some p => { n with positionX := p.positionX, positionY := p.positionY }
  | none => n

theorem applyLastListed_cons (p : NodePositionUpdateRequest)
    (rest : List NodePositionUpdateRequest) (n : NodeRec) :
    applyLastListed rest
      (if n.id == p.id then { n with positionX := p.positionX, positionY := p.positionY }
       else n) = applyLastListed (p :: rest) n := by
  by_cases hid : n.id = p.id
  · rw [if_pos (by simp [hid])]
    simp only [applyLastListed, List.reverse_cons, List.find?_append]
    rcases hr : rest.reverse.find? (fun q => n.id == q.id) with _ | q
    · rw [hr]; simp [List.find?, hid]
    · rw [hr]; simp
  · rw [if_neg (by simp [hid])]
    simp only [applyLastListed, List.reverse_cons, List.find?_append]
    rcases hr : rest.reverse.find? (fun q => n.id == q.id) with _ | q
    · rw [hr]; simp [List.find?, show (n.id == p.id) = false by simp [hid]]
    · rw [hr]; simp

theorem foldl_applyPos_nodes (ps : List NodePositionUpdateRequest) : ∀ s : Store,
    (ps.foldl applyPos s).nodes = s.nodes.map (applyLastListed ps) := by
  induction ps with
  | nil =>
    intro s
    have h0 : ∀ n ∈ s.nodes, applyLastListed [] n = n := fun n _ => by simp [applyLastListed]
    rw [List.map_congr_left h0]
    simp
  | cons p rest ih =>
    intro s
    rw [List.foldl_cons, ih (applyPos s p)]
    show (s.nodes.map _).map _ = _
    rw [List.map_map]
    exact List.map_congr_left fun n _ => applyLastListed_cons p rest n

theorem foldl_applyPos_frame (ps : List NodePositionUpdateRequest) : ∀ s : Store,
    (ps.foldl applyPos s).mindMaps = s.mindMaps ∧
    (ps.foldl applyPos s).edges = s.edges ∧
    (ps.foldl applyPos s).apiKeys = s.apiKeys := by
  induction ps with
  | nil => intro s; exact ⟨rfl, rfl, rfl⟩
  | cons p rest ih =>
    intro s
    rw [List.foldl_cons]
    exact ih (applyPos s p)

theorem batchLoop_cases (oracle : Nat → Bool) :
    ∀ (ps : List NodePositionUpdateRequest) (i : Nat) (w : Store),
    (∃ e, batchLoop oracle w i ps = .error e) ∨
    batchLoop oracle w i ps = .ok (ps.foldl applyPos w) := by
  intro ps
  induction ps with
  | nil => intro i w; right; rfl
  | cons p rest ih =>
    intro i w
    by_cases h : oracle i = true
    · left; exact ⟨"exec failed", by simp [batchLoop, h]⟩
    · have h2 := ih (i + 1) (applyPos w p)
      simpa [batchLoop, h] using h2

theorem batchLoop_ok_iff (oracle : Nat → Bool) :
    ∀ (ps : List NodePositionUpdateRequest) (i : Nat) (w : Store),
    (∃ w2, batchLoop oracle w i ps = Except.ok w2) ↔ ∀ j < ps.length, oracle (i + j) = false := by
  intro ps
  induction ps with
  | nil =>
    intro i w
    exact ⟨fun _ j hj => absurd hj (by simp), fun _ => ⟨w, rfl⟩⟩
  | cons p rest ih =>
    intro i w
    by_cases h : oracle i = true
    · simp only [batchLoop, h, if_true]
      constructor
      · rintro ⟨w2, hw⟩; cases hw
      · intro hall
        have h0 := hall 0 (by simp)
        rw [Nat.add_zero] at h0
        rw [h] at h0
        cases h0
    · simp only [batchLoop, h, if_false, Bool.false_eq_true]
      rw [ih (i + 1) (applyPos w p)]
      constructor
      · intro hall j hj
        match j with
        | 0 => simpa using Bool.not_eq_true _ |>.mp h
        | j + 1 =>
          have := hall j (by simpa using hj)
          rwa [show i + 1 + j = i + (j + 1) by omega] at this
      · intro hall j hj
        have := hall (j + 1) (by simpa using hj)
        rwa [show i + (j + 1) = i + 1 + j by omega] at this

/-- C1: `BatchUpdateNodePositions` is atomic. On any error the visible
store is exactly the caller's store (full rollback). On success the batch
committed: every listed node that exists holds its (last) listed position,
all other rows are untouched. Moreover the call reports an error exactly
when a statement-level fault was injected — in particular a batch entry
referencing a nonexistent node id is a zero-row no-op, never an error, so
no partial write (some but not all existing listed nodes updated) is ever
observable after the call returns. -/
theorem batchUpdatePositions_atomic (oracle : Nat → Bool) (s : Store)
    (ps : List NodePositionUpdateRequest) :
    (match dbBatchUpdateNodePositions oracle s ps with
     | (w, some _) => w = s
     | (w, none) =>
       w.nodes = s.nodes.map (applyLastListed ps) ∧
       w.mindMaps = s.mindMaps ∧ w.edges = s.edges ∧ w.apiKeys = s.apiKeys) ∧
    ((dbBatchUpdateNodePositions oracle s ps).2 = none ↔ ∀ i < ps.length, oracle i = false) := by
  constructor
  · unfold dbBatchUpdateNodePositions
    rcases batchLoop_cases oracle ps 0 s with ⟨e, he⟩ | hok
    · rw [he]
    · rw [hok]
      exact ⟨foldl_applyPos_nodes ps s, foldl_applyPos_frame ps s⟩
  · unfold dbBatchUpdateNodePositions
    rcases h1 : batchLoop oracle s 0 ps with e | w
    · simp only []
      constructor
      · intro h; cases h
      · intro hall
        obtain ⟨w2, hw⟩ := (batchLoop_ok_iff oracle ps 0 s).mpr
          (fun j hj => by simpa using hall j hj)
        rw [h1] at hw
        cases hw
    · simp only []
      constructor
      · intro _ j hj
        have := (batchLoop_ok_iff oracle ps 0 s).mp ⟨w, h1⟩ j hj
        simpa using this
      · intro _; trivial

def mapM1 : MindMapRec := ⟨"m1", "u1", "T", "D", false, "active"⟩

def nodeA : NodeRec := ⟨"n1", "m1", none, "one", 0, 0, "text", emptyObj, emptyObj⟩

def nodeC : NodeRec := ⟨"n3", "m1", none, "three", 0, 0, "text", emptyObj, emptyObj⟩

def storeB : Store := ⟨[mapM1], [nodeA, nodeC], [], []⟩

def psB : List NodePositionUpdateRequest := [⟨"n1", 10, 11⟩, ⟨"n2", 20, 21⟩, ⟨"n3", 30, 31⟩]

/-- Witness for C1: the spec's scenario — a fault-free batch of 3 updates
whose 2nd entry references a node id absent from the store commits without
error, with both existing listed nodes at their new positions. -/
theorem batchUpdatePositions_atomic_witness :
    (dbBatchUpdateNodePositions (fun _ => false) storeB psB).2 = none ∧
    (dbBatchUpdateNodePositions (fun _ => false) storeB psB).1.nodes
      = storeB.nodes.map (applyLastListed psB) := by
  have h := batchUpdatePositions_atomic (fun _ => false) storeB psB
  have hnone : (dbBatchUpdateNodePositions (fun _ => false) storeB psB).2 = none :=
    h.2.mpr fun i _ => rfl
  refine ⟨hnone, ?_⟩
  have h1 := h.1
  rcases hval : dbBatchUpdateNodePositions (fun _ => false) storeB psB with ⟨w, e⟩
  rw [hval] at h1 hnone
  simp only [] at hnone
  subst hnone
  exact h1.1

def mapPub : MindMapRec := ⟨"m2", "u1", "T", "D", true, "active"⟩

def storeP : Store := ⟨[mapPub], [], [], []⟩

/-- C4 counterexample: an all-zero mind-map update request (empty title,
empty description, `is_public` false, empty status) does not leave every
stored field unchanged: the stored `is_public` flag flips from true to
false, because `UpdateMindMap` writes `is_public = $4` unconditionally. -/
theorem mindMapUpdate_zero_ispublic_cex :
    mapPub.isPublic = true ∧
    dbUpdateMindMap storeP "m2" ⟨"", "", false, ""⟩
      = .ok ⟨[⟨"m2", "u1", "T", "D", false, "active"⟩], [], [], []⟩ := by decide

/-- C4 amended: in a node update, empty-string fields (content, node type),
zero positions and absent JSON blobs leave the stored field unchanged —
so no update can clear content or set a coordinate to exactly 0 — and
non-zero fields overwrite; the same coalescing holds for the mind-map's
title, description and status, BUT the mind-map's `is_public` boolean is
written unconditionally from the request on every successful update. Rows
not addressed by the id (or already soft-deleted) are untouched, as are all
other tables. -/
theorem update_zero_fields_coalesce (s : Store) (nid mid : String)
    (nreq : NodeUpdateRequest) (mreq : MindMapUpdateRequest) (s1 s2 : Store)
    (h1 : dbUpdateNode s nid nreq = .ok s1)
    (h2 : dbUpdateMindMap s mid mreq = .ok s2) :
    (∃ g, s1.nodes = s.nodes.map g ∧
      (∀ n, n.id ≠ nid → g n = n) ∧
      (∀ n, n.id = nid →
        (nreq.content = "" → (g n).content = n.content) ∧
        (nreq.content ≠ "" → (g n).content = nreq.content) ∧
        (nreq.positionX = 0 → (g n).positionX = n.positionX) ∧
        (nreq.positionX ≠ 0 → (g n).positionX = nreq.positionX) ∧
        (nreq.positionY = 0 → (g n).positionY = n.positionY) ∧
        (nreq.positionY ≠ 0 → (g n).positionY = nreq.positionY) ∧
        (nreq.nodeType = "" → (g n).nodeType = n.nodeType) ∧
        (nreq.nodeType ≠ "" → (g n).nodeType = nreq.nodeType) ∧
        (nreq.styleData = none → (g n).styleData = n.styleData) ∧
        (∀ v, nreq.styleData = some v → (g n).styleData = v) ∧
        (nreq.metadata = none → (g n).metadata = n.metadata) ∧
        (∀ v, nreq.metadata = some v → (g n).metadata = v) ∧
        (g n).id = n.id ∧ (g n).mindMapId = n.mindMapId ∧ (g n).parentId = n.parentId)) ∧
    s1.mindMaps = s.mindMaps ∧ s1.edges = s.edges ∧ s1.apiKeys = s.apiKeys ∧
    (∃ f, s2.mindMaps = s.mindMaps.map f ∧
      (∀ m, ¬(m.id = mid ∧ m.status ≠ "deleted") → f m = m) ∧
      (∀ m, m.id = mid → m.status ≠ "deleted" →
        (mreq.title = "" → (f m).title = m.title) ∧
        (mreq.title ≠ "" → (f m).title = mreq.title) ∧
        (mreq.description = "" → (f m).description = m.description) ∧
        (mreq.description ≠ "" → (f m).description = mreq.description) ∧
        (mreq.status = "" → (f m).status = m.status) ∧
        (mreq.status ≠ "" → (f m).status = mreq.status) ∧
        (f m).isPublic = mreq.isPublic ∧
        (f m).id = m.id ∧ (f m).userId = m.userId)) ∧
    s2.nodes = s.nodes ∧ s2.edges = s.edges ∧ s2.apiKeys = s.apiKeys := by
  by_cases hc1 : (s.nodes.countP fun n => n.id == nid) = 0
  · rw [dbUpdateNode, if_pos hc1] at h1; cases h1
  by_cases hc2 : (s.mindMaps.countP fun m => m.id == mid && m.status != "deleted") = 0
  · rw [dbUpdateMindMap, if_pos hc2] at h2; cases h2
  rw [dbUpdateNode, if_neg hc1] at h1
  rw [dbUpdateMindMap, if_neg hc2] at h2
  cases h1
  cases h2
  refine ⟨⟨fun n => if n.id == nid then applyNodeUpdate nreq n else n, rfl, ?_, ?_⟩,
    rfl, rfl, rfl,
    ⟨fun m => if m.id == mid && m.status != "deleted" then applyMindMapUpdate mreq m else m,
      rfl, ?_, ?_⟩, rfl, rfl, rfl⟩
  · intro n hn
    simp [show (n.id == nid) = false by simp [hn]]
  · intro n hn
    simp only []
    rw [if_pos (by simp [hn])]
    refine ⟨fun hv => ?_, fun hv => ?_, fun hv => ?_, fun hv => ?_, fun hv => ?_,
      fun hv => ?_, fun hv => ?_, fun hv => ?_, fun hv => ?_, fun v hv => ?_,
      fun hv => ?_, fun v hv => ?_, rfl, rfl, rfl⟩ <;> simp [applyNodeUpdate, hv]
  · intro m hm
    have hb : (m.id == mid && m.status != "deleted") = false := by
      rcases not_and_or.mp hm with h | h
      · simp [h]
      · simp [not_not.mp h]
    simp [hb]
  · intro m hmid hstat
    simp only []
    rw [if_pos (by simp [hmid, hstat])]
    refine ⟨fun hv => ?_, fun hv => ?_, fun hv => ?_, fun hv => ?_, fun hv => ?_,
      fun hv => ?_, rfl, rfl, rfl⟩ <;> simp [applyMindMapUpdate, hv]

def nodeW4 : NodeRec := ⟨"n1", "m1", none, "c", 3, 4, "text", emptyObj, emptyObj⟩

def mapW4 : MindMapRec := ⟨"m1", "u1", "T", "D", true, "active"⟩

def storeW4 : Store := ⟨[mapW4], [nodeW4], [], []⟩

def s1W : Store := ⟨[mapW4], [⟨"n1", "m1", none, "c", 3, 9, "text", emptyObj, "S"⟩], [], []⟩

def s2W : Store := ⟨[⟨"m1", "u1", "T", "newD", false, "active"⟩], [nodeW4], [], []⟩

/-- Witness for C4 (amended): a node update with empty content, zero x,
y = 9 and a metadata blob, and a mind-map update with empty title, a new
description and `is_public` false, both succeed on a concrete store. -/
theorem update_zero_fields_coalesce_witness :
    dbUpdateNode storeW4 "n1" ⟨"", 0, 9, "", none, some "S"⟩ = .ok s1W ∧
    dbUpdateMindMap storeW4 "m1" ⟨"", "newD", false, ""⟩ = .ok s2W ∧
    s1W.mindMaps = storeW4.mindMaps :=
  ⟨by decide, by decide,
    (update_zero_fields_coalesce storeW4 "n1" "m1" ⟨"", 0, 9, "", none, some "S"⟩
      ⟨"", "newD", false, ""⟩ s1W s2W (by decide) (by decide)).2.1⟩

/-- C10: `UpdateAPIKey` on an existing key row always writes the request's
`is_active` value (an omitted field decodes to false and so deactivates the
key), re-encrypts and replaces the key material only when the request's key
is non-empty (an empty key leaves the stored ciphertext unchanged), and
never changes `user_id` or `service`; other rows and tables are
untouched. -/
theorem updateAPIKey_semantics (enc : String → String) (s : Store) (id : String)
    (req : APIKeyUpdateRequest) (k0 : APIKeyRec)
    (h : s.apiKeys.find? (fun k => k.id == id) = some k0) :
    ∃ s', dbUpdateAPIKey enc s id req = .ok s' ∧
      s'.mindMaps = s.mindMaps ∧ s'.nodes = s.nodes ∧ s'.edges = s.edges ∧
      ∃ g, s'.apiKeys = s.apiKeys.map g ∧
        (∀ k, k.id ≠ id → g k = k) ∧
        (∀ k, k.id = id →
          (g k).isActive = req.isActive ∧
          (req.key = "" → (g k).encryptedKey = k.encryptedKey) ∧
          (req.key ≠ "" → (g k).encryptedKey = enc req.key) ∧
          (g k).userId = k.userId ∧ (g k).service = k.service ∧ (g k).id = k.id) := by
  rw [dbUpdateAPIKey, h]
  by_cases hk : req.key = ""
  · rw [if_neg (by simp [hk])]
    refine ⟨_, rfl, rfl, rfl, rfl,
      fun k => if k.id == id then { k with isActive := req.isActive } else k, rfl, ?_, ?_⟩
    · intro k hkid; simp [show (k.id == id) = false by simp [hkid]]
    · intro k hkid
      simp only []
      rw [if_pos (by simp [hkid])]
      exact ⟨rfl, fun _ => rfl, fun hne => absurd hk hne, rfl, rfl, rfl⟩
  · rw [if_pos hk]
    refine ⟨_, rfl, rfl, rfl, rfl,
      fun k => if k.id == id
        then { k with encryptedKey := enc req.key, isActive := req.isActive } else k,
      ?_, ?_, ?_⟩
    · show List.map _ (List.map _ _) = _
      rw [List.map_map]
      refine List.map_congr_left fun k _ => ?_
      by_cases hkid : k.id = id
      · simp [Function.comp, show (k.id == id) = true by simp [hkid]]
      · simp [Function.comp, show (k.id == id) = false by simp [hkid]]
    · intro k hkid; simp [show (k.id == id) = false by simp [hkid]]
    · intro k hkid
      simp only []
      rw [if_pos (by simp [hkid])]
      exact ⟨rfl, fun he => absurd he hk, fun _ => rfl, rfl, rfl, rfl⟩

def keyRecW : APIKeyRec := ⟨"k1", "u1", "openai", "OLD", false⟩

def storeK : Store := ⟨[], [], [], [keyRecW]⟩

def encW : String → String := fun key => key ++ "!"

/-- Witness for C10: updating the stored key "k1" with an empty key field
and `is_active` true succeeds on a concrete store. -/
theorem updateAPIKey_semantics_witness :
    storeK.apiKeys.find? (fun k => k.id == "k1") = some keyRecW ∧
    ∃ s', dbUpdateAPIKey encW storeK "k1" ⟨"", true⟩ = .ok s' :=
  ⟨by decide,
    (updateAPIKey_semantics encW storeK "k1" ⟨"", true⟩ keyRecW (by decide)).elim
      fun s' hp => ⟨s', hp.1⟩⟩

/-! ### HTTP handler layer (`handlers/node.go`, `handlers/edge.go`)

The auth middleware has already resolved the user id; URL extraction and
uuid syntax checks are out of scope. An HTTP error response carries the
status it was written with. -/

inductive HResult (α : Type) where
  | ok : α → HResult α
  | badRequest : String → HResult α
  | unauthorized : HResult α
  | serverError : String → HResult α
deriving DecidableEq

/-- `NodeHandler.UpdateNode`: load the node, load its mind map, reject
non-owners, then run the partial-field update. -/
def handlerUpdateNode (s : Store) (userId nodeId : String) (req : NodeUpdateRequest) :
    Store × HResult Unit :=
  match dbGetNodeByID s nodeId with
  | none => (s, .serverError "Failed to get node")
  | some node =>
    match dbGetMindMapByID s node.mindMapId with
    | none => (s, .serverError "Failed to get mind map")
    | some m =>
      if m.userId ≠ userId then (s, .unauthorized)
      else match dbUpdateNode s nodeId req with
        | .error e => (s, .serverError e)
        | .ok s2 => (s2, .ok ())

/-- `NodeHandler.DeleteNode`. -/
def handlerDeleteNode (s : Store) (userId nodeId : String) : Store × HResult Unit :=
  match dbGetNodeByID s nodeId with
  | none => (s, .serverError "Failed to get node")
  | some node =>
    match dbGetMindMapByID s node.mindMapId with
    | none => (s, .serverError "Failed to get mind map")
    | some m =>
      if m.userId ≠ userId then (s, .unauthorized)
      else match dbDeleteNode s nodeId with
        | .error e => (s, .serverError e)
        | .ok s2 => (s2, .ok ())

/-- `EdgeHandler.DeleteEdge`. -/
def handlerDeleteEdge (s : Store) (userId edgeId : String) : Store × HResult Unit :=
  match dbGetEdgeByID s edgeId with
  | none => (s, .serverError "Failed to get edge")
  | some e =>
    match dbGetMindMapByID s e.mindMapId with
    | none => (s, .serverError "Failed to get mind map")
    | some m =>
      if m.userId ≠ userId then (s, .unauthorized)
      else match dbDeleteEdge s edgeId with
        | .error msg => (s, .serverError msg)
        | .ok s2 => (s2, .ok ())

/-- `NodeHandler.GetNodesByMindMap`: readable by the owner or anyone when
the map is public. -/
def handlerGetNodesByMindMap (s : Store) (userId mindMapId : String) :
    HResult (List NodeRec) :=
  match dbGetMindMapByID s mindMapId with
  | none => .serverError "Failed to get mind map"
  | some m =>
    if m.userId ≠ userId ∧ ¬ m.isPublic then .unauthorized
    else .ok (dbGetNodesByMindMapID s mindMapId)

/-- `NodeHandler.BatchUpdateNodePositions`: ownership is checked only
against the mind map of the FIRST listed node, then the whole batch runs. -/
def handlerBatchUpdateNodePositions (oracle : Nat → Bool) (s : Store) (userId : String)
    (positions : List NodePositionUpdateRequest) : Store × HResult Unit :=
  match positions with
  | [] => (s, .badRequest "No positions provided")
  | p0 :: _ =>
    match dbGetNodeByID s p0.id with
    | none => (s, .serverError "Failed to get node")
    | some node =>
      match dbGetMindMapByID s node.mindMapId with
      | none => (s, .serverError "Failed to get mind map")
      | some m =>
        if m.userId ≠ userId then (s, .unauthorized)
        else match dbBatchUpdateNodePositions oracle s positions with
          | (s2, none) => (s2, .ok ())
          | (_, some e) => (s, .serverError e)

def mapA : MindMapRec := ⟨"mA", "u1", "A", "", false, "active"⟩

def mapM : MindMapRec := ⟨"mM", "u2", "M", "", false, "active"⟩

def mapP : MindMapRec := ⟨"mP", "u2", "P", "", true, "active"⟩

def nodeOwn : NodeRec := ⟨"na", "mA", none, "a", 0, 0, "text", emptyObj, emptyObj⟩

def nodeOther : NodeRec := ⟨"nm", "mM", none, "m", 0, 0, "text", emptyObj, emptyObj⟩

def edgeE : EdgeRec := ⟨"e1", "mA", "na", "na", "idea", emptyObj⟩

def storeC5 : Store := ⟨[mapA, mapM, mapP], [nodeOwn, nodeOther], [edgeE], []⟩

def psC5 : List NodePositionUpdateRequest := [⟨"na", 1, 1⟩, ⟨"nm", 2, 2⟩]

/-- C5 counterexample: user "u1" owns map "mA" but not "mM" (owned by
"u2"), yet a batch position update whose first entry is u1's node "na" and
whose second entry is "nm" from map "mM" succeeds and moves "nm" to (2,2):
the batch path checks ownership only for the first listed node's map, so a
non-owner can mutate another user's nodes without an Unauthorized
rejection. -/
theorem batch_ownership_bypass_cex :
    (handlerBatchUpdateNodePositions (fun _ => false) storeC5 "u1" psC5).2 = .ok () ∧
    (handlerBatchUpdateNodePositions (fun _ => false) storeC5 "u1" psC5).1.nodes
      = [⟨"na", "mA", none, "a", 1, 1, "text", emptyObj, emptyObj⟩,
         ⟨"nm", "mM", none, "m", 2, 2, "text", emptyObj, emptyObj⟩] ∧
    (dbGetMindMapByID storeC5 "mM").map (fun m => m.userId) = some "u2" ∧
    "u2" ≠ "u1" := by decide

/-- C5 amended: the single-entity mutation paths (node update, node delete,
edge delete) reject any caller who does not own the containing mind map
with Unauthorized and leave the store untouched, and reads succeed for
anyone when the map is public; the batch position path, however, checks
ownership only against the mind map of the FIRST listed node — it rejects
when that owner differs from the caller, but entries beyond the first are
never ownership-checked (see the counterexample). -/
theorem ownership_enforcement (s : Store) (u : String) :
    (∀ nodeId req node m, dbGetNodeByID s nodeId = some node →
      dbGetMindMapByID s node.mindMapId = some m → m.userId ≠ u →
      handlerUpdateNode s u nodeId req = (s, .unauthorized)) ∧
    (∀ nodeId node m, dbGetNodeByID s nodeId = some node →
      dbGetMindMapByID s node.mindMapId = some m → m.userId ≠ u →
      handlerDeleteNode s u nodeId = (s, .unauthorized)) ∧
    (∀ edgeId e m, dbGetEdgeByID s edgeId = some e →
      dbGetMindMapByID s e.mindMapId = some m → m.userId ≠ u →
      handlerDeleteEdge s u edgeId = (s, .unauthorized)) ∧
    (∀ mid m, dbGetMindMapByID s mid = some m → m.isPublic = true →
      handlerGetNodesByMindMap s u mid = .ok (dbGetNodesByMindMapID s mid)) ∧
    (∀ oracle p0 rest node m,
      dbGetNodeByID s p0.id = some node →
      dbGetMindMapByID s node.mindMapId = some m → m.userId ≠ u →
      handlerBatchUpdateNodePositions oracle s u (p0 :: rest) = (s, .unauthorized)) := by
  refine ⟨?_, ?_, ?_, ?_, ?_⟩
  · intro nodeId req node m hn hm hne
    simp [handlerUpdateNode, hn, hm, hne]
  · intro nodeId node m hn hm hne
    simp [handlerDeleteNode, hn, hm, hne]
  · intro edgeId e m he hm hne
    simp [handlerDeleteEdge, he, hm, hne]
  · intro mid m hm hpub
    simp [handlerGetNodesByMindMap, hm, hpub]
  · intro oracle p0 rest node m hn hm hne
    simp [handlerBatchUpdateNodePositions, hn, hm, hne]

/-- Witness for C5 (amended): user "u3" owns nothing in the store; all four
mutation paths reject with Unauthorized and the public map "mP" is
readable. -/
theorem ownership_enforcement_witness :
    handlerUpdateNode storeC5 "u3" "na" ⟨"", 0, 0, "", none, none⟩
      = (storeC5, .unauthorized) ∧
    handlerDeleteNode storeC5 "u3" "na" = (storeC5, .unauthorized) ∧
    handlerDeleteEdge storeC5 "u3" "e1" = (storeC5, .unauthorized) ∧
    handlerGetNodesByMindMap storeC5 "u3" "mP" = .ok (dbGetNodesByMindMapID storeC5 "mP") ∧
    handlerBatchUpdateNodePositions (fun _ => false) storeC5 "u3" psC5
      = (storeC5, .unauthorized) :=
  ⟨(ownership_enforcement storeC5 "u3").1 "na" ⟨"", 0, 0, "", none, none⟩ nodeOwn mapA
      (by decide) (by decide) (by decide),
   (ownership_enforcement storeC5 "u3").2.1 "na" nodeOwn mapA (by decide) (by decide) (by decide),
   (ownership_enforcement storeC5 "u3").2.2.1 "e1" edgeE mapA (by decide) (by decide) (by decide),
   (ownership_enforcement storeC5 "u3").2.2.2.1 "mP" mapP (by decide) (by decide),
   (ownership_enforcement storeC5 "u3").2.2.2.2 (fun _ => false) ⟨"na", 1, 1⟩ [⟨"nm", 2, 2⟩]
      nodeOwn mapA (by decide) (by decide) (by decide)⟩

/-! ### Layout engine and idea materialization (idea generation handler)

`cosAt i count` / `sinAt i count` stand for `math.Cos/Sin` at angle
`i * 2π/count`; only the radial branch consults them. `intCeilSqrt` models
`int(math.Ceil(math.Sqrt(float64(count))))`. -/

structure Position where
  x : ℚ
  y : ℚ
deriving DecidableEq

def intCeilSqrt (n : Nat) : Nat :=
  if Nat.sqrt n * Nat.sqrt n = n then Nat.sqrt n else Nat.sqrt n + 1

/-- `calculateNodePositions`: radial / horizontal / vertical / default grid
placement around the anchor, with the source's integer divisions. -/
def calculateNodePositions (cosAt sinAt : Nat → Nat → ℚ) (startX startY : ℚ)
    (count : Nat) (layout : String) : List Position :=
  if layout = "radial" then
    (List.range count).map fun (i : Nat) =>
      ⟨startX + 200 * cosAt i count, startY + 200 * sinAt i count⟩
  else if layout = "horizontal" then
    (List.range count).map fun (i : Nat) =>
      ⟨startX + ((((i : ℤ) - (count : ℤ) / 2 : ℤ)) : ℚ) * 250, startY⟩
  else if layout = "vertical" then
    (List.range count).map fun (i : Nat) =>
      ⟨startX, startY + ((((i : ℤ) - (count : ℤ) / 2 : ℤ)) : ℚ) * 150⟩
  else
    let cols := intCeilSqrt count
    (List.range count).map fun (i : Nat) =>
      ⟨startX + (((((i % cols : Nat) : ℤ) - (cols : ℤ) / 2 : ℤ)) : ℚ) * 250,
       startY + (((((i / cols : Nat) : ℤ) - (count : ℤ) / (2 * (cols : ℤ)) : ℤ)) : ℚ) * 150⟩

structure Idea where
  content : String
  confidence : ℚ
deriving DecidableEq

structure NodeCreateRequest where
  mindMapId : String
  parentId : Option String
  content : String
  positionX : ℚ
  positionY : ℚ
  nodeType : String
  styleData : Option String
  metadata : Option String
deriving DecidableEq

structure EdgeCreateRequest where
  mindMapId : String
  sourceId : String
  targetId : String
  edgeType : String
  styleData : Option String
deriving DecidableEq

/-- `CreateNode`: INSERT with the generated id; absent JSON blobs default
to the empty object. Returns the created row. -/
def dbCreateNode (s : Store) (id : String) (req : NodeCreateRequest) : Store × NodeRec :=
  let n : NodeRec := ⟨id, req.mindMapId, req.parentId, req.content, req.positionX,
    req.positionY, req.nodeType, req.styleData.getD emptyObj, req.metadata.getD emptyObj⟩
  ({ s with nodes := s.nodes ++ [n] }, n)

/-- `CreateEdge`. -/
def dbCreateEdge (s : Store) (id : String) (req : EdgeCreateRequest) : Store × EdgeRec :=
  let e : EdgeRec := ⟨id, req.mindMapId, req.sourceId, req.targetId, req.edgeType,
    req.styleData.getD emptyObj⟩
  ({ s with edges := s.edges ++ [e] }, e)

structure CreateNodesRequest where
  mindMapId : String
  parentId : String
  ideas : List Idea
  startX : ℚ
  startY : ℚ
  layout : String
deriving DecidableEq

/-- The node/edge creation loop of `CreateNodesFromIdeas`: `i` is the idea
index, `k` the DB-statement counter (`oracle k` injects a failure of the
k-th INSERT), `ns`/`es` the accumulated created rows. On a failure the
handler writes a 500 and returns at once; rows created earlier stay. -/
def materializeLoop (oracle : Nat → Bool) (idGen : Nat → String) (req : CreateNodesRequest)
    (positions : List Position) : Nat → Nat → Store → List NodeRec → List EdgeRec →
    List Idea → Store × HResult (List NodeRec × List EdgeRec)
  | _, _, w, ns, es, [] => (w, .ok (ns, es))
  | i, k, w, ns, es, idea :: rest =>
    if oracle k then (w, .serverError "Failed to create node")
    else
      let nodeReq : NodeCreateRequest :=
        { mindMapId := req.mindMapId
          parentId := if req.parentId = "" then none else some req.parentId
          content := idea.content
          positionX := (positions.getD i ⟨0, 0⟩).x
          positionY := (positions.getD i ⟨0, 0⟩).y
          nodeType := "idea"
          styleData := none
          metadata := none }
      let wr := dbCreateNode w (idGen k) nodeReq
      if req.parentId = "" then
        materializeLoop oracle idGen req positions (i + 1) (k + 1) wr.1 (ns ++ [wr.2]) es rest
      else if oracle (k + 1) then (wr.1, .serverError "Failed to create edge")
      else
        let er := dbCreateEdge wr.1 (idGen (k + 1))
          { mindMapId := req.mindMapId, sourceId := req.parentId,
            targetId := wr.2.id, edgeType := "idea", styleData := none }
        materializeLoop oracle idGen req positions (i + 1) (k + 2) er.1
          (ns ++ [wr.2]) (es ++ [er.2]) rest

/-- `CreateNodesFromIdeas`: validate, authorize against the mind-map owner,
compute positions for `len(ideas)`, then create one node per idea and —
when a parent is given — one edge from the parent to each new node. -/
def handlerCreateNodesFromIdeas (oracle : Nat → Bool) (idGen : Nat → String)
    (cosAt sinAt : Nat → Nat → ℚ) (s : Store) (userId : String)
    (req : CreateNodesRequest) : Store × HResult (List NodeRec × List EdgeRec) :=
  if req.mindMapId = "" then (s, .badRequest "Mind map ID is required")
  else match dbGetMindMapByID s req.mindMapId with
  | none => (s, .serverError "Failed to get mind map")
  | some m =>
    if m.userId ≠ userId then (s, .unauthorized)
    else
      let positions := calculateNodePositions cosAt sinAt req.startX req.startY
        req.ideas.length req.layout
      materializeLoop oracle idGen req positions 0 0 s [] [] req.ideas

def cf0 : Nat → Nat → ℚ := fun _ _ => 0

def sf0 : Nat → Nat → ℚ := fun _ _ => 0

def idGenW : Nat → String := fun k => "id" ++ toString k

def reqH3 : CreateNodesRequest :=
  ⟨"mA", "", [⟨"one", 7 / 10⟩, ⟨"two", 7 / 10⟩, ⟨"three", 7 / 10⟩], 0, 0, "horizontal"⟩

/-- C9: the horizontal strategy places point i at
x = anchor.x + (i − count/2)·250 (integer division) and y = anchor.y, with
exactly `count` points; materializing 3 ideas with layout "horizontal" at
anchor (0,0) creates 3 nodes with x ∈ {−250, 0, 250} and y = 0 and no
edges. -/
theorem horizontal_layout_positions (cosAt sinAt : Nat → Nat → ℚ) (sx sy : ℚ)
    (count i : Nat) (h : i < count) :
    (calculateNodePositions cosAt sinAt sx sy count "horizontal").length = count ∧
    (calculateNodePositions cosAt sinAt sx sy count "horizontal")[i]?
      = some ⟨sx + (((i : ℤ) - (count : ℤ) / 2 : ℤ) : ℚ) * 250, sy⟩ ∧
    (∃ ns, (handlerCreateNodesFromIdeas (fun _ => false) idGenW cf0 sf0 storeC5 "u1" reqH3).2
        = .ok (ns, []) ∧
      ns.map (fun n => (n.positionX, n.positionY)) = [(-250, 0), (0, 0), (250, 0)] ∧
      (handlerCreateNodesFromIdeas (fun _ => false) idGenW cf0 sf0 storeC5 "u1" reqH3).1.nodes
        = storeC5.nodes ++ ns) := by
  have hb : calculateNodePositions cosAt sinAt sx sy count "horizontal"
      = (List.range count).map
          (fun (j : Nat) =>
            (⟨sx + ((((j : ℤ) - (count : ℤ) / 2 : ℤ)) : ℚ) * 250, sy⟩ : Position)) := by
    rw [calculateNodePositions, if_neg (by decide), if_pos rfl]
  refine ⟨?_, ?_, ?_⟩
  · rw [hb, List.length_map, List.length_range]
  · rw [hb, List.getElem?_map, List.getElem?_range h]
    rfl
  · refine ⟨[⟨"id0", "mA", none, "one",
        (0 : ℚ) + (((0 : ℤ) - (3 : ℤ) / 2 : ℤ) : ℚ) * 250, 0, "idea", emptyObj, emptyObj⟩,
      ⟨"id1", "mA", none, "two",
        (0 : ℚ) + (((1 : ℤ) - (3 : ℤ) / 2 : ℤ) : ℚ) * 250, 0, "idea", emptyObj, emptyObj⟩,
      ⟨"id2", "mA", none, "three",
        (0 : ℚ) + (((2 : ℤ) - (3 : ℤ) / 2 : ℤ) : ℚ) * 250, 0, "idea", emptyObj, emptyObj⟩],
      rfl, ?_, rfl⟩
    simp only [List.map_cons, List.map_nil, Prod.mk.injEq, List.cons.injEq, and_true]
    norm_num

/-- Witness for C9 at i = 1, count = 3, anchor (0,0): the middle point sits
on the anchor. -/
theorem horizontal_layout_positions_witness :
    (calculateNodePositions cf0 sf0 0 0 3 "horizontal")[1]? = some ⟨0, 0⟩ := by
  rw [(horizontal_layout_positions cf0 sf0 0 0 3 1 (by decide)).2.1]
  simp only [Option.some.injEq, Position.mk.injEq]
  norm_num

/-! ### Trace semantics of the materialization loop (for the partial
failure analysis). A run is a list of row-creation operations; `runOps`
executes them against the fault oracle, stopping at the first injected
failure with everything before it applied. -/

inductive MatOp where
  | node : NodeRec → MatOp
  | edge : EdgeRec → MatOp
deriving DecidableEq

def applyMatOp (w : Store) : MatOp → Store
  | .node n => { w with nodes := w.nodes ++ [n] }
  | .edge e => { w with edges := w.edges ++ [e] }

def opsApply (w : Store) (l : List MatOp) : Store := l.foldl applyMatOp w

def opsNodes : List MatOp → List NodeRec
  | [] => []
  | .node n :: rest => n :: opsNodes rest
  | .edge _ :: rest => opsNodes rest

def opsEdges : List MatOp → List EdgeRec
  | [] => []
  | .edge e :: rest => e :: opsEdges rest
  | .node _ :: rest => opsEdges rest

def opFailMsg : MatOp → String
  | .node _ => "Failed to create node"
  | .edge _ => "Failed to create edge"

/-- The node row the loop creates for idea index `i` at statement counter
`k`. -/
def nodeRecFor (idGen : Nat → String) (req : CreateNodesRequest) (positions : List Position)
    (i k : Nat) (idea : Idea) : NodeRec :=
  ⟨idGen k, req.mindMapId, if req.parentId = "" then none else some req.parentId,
   idea.content, (positions.getD i ⟨0, 0⟩).x, (positions.getD i ⟨0, 0⟩).y,
   "idea", emptyObj, emptyObj⟩

/-- The edge row from the parent to the node with id `targetId`. -/
def edgeRecFor (idGen : Nat → String) (req : CreateNodesRequest) (k : Nat)
    (targetId : String) : EdgeRec :=
  ⟨idGen k, req.mindMapId, req.parentId, targetId, "idea", emptyObj⟩

/-- The operation sequence `CreateNodesFromIdeas` attempts: one node INSERT
per idea, followed by an edge INSERT when a parent is given. -/
def matOps (idGen : Nat → String) (req : CreateNodesRequest) (positions : List Position) :
    Nat → Nat → List Idea → List MatOp
  | _, _, [] => []
  | i, k, idea :: rest =>
    if req.parentId = "" then
      .node (nodeRecFor idGen req positions i k idea)
        :: matOps idGen req positions (i + 1) (k + 1) rest
    else
      .node (nodeRecFor idGen req positions i k idea)
        :: .edge (edgeRecFor idGen req (k + 1) (idGen k))
        :: matOps idGen req positions (i + 1) (k + 2) rest

def runOps (oracle : Nat → Bool) : Nat → Store → List MatOp → Store × Option MatOp
  | _, w, [] => (w, none)
  | k, w, op :: rest =>
    if oracle k then (w, some op) else runOps oracle (k + 1) (applyMatOp w op) rest

theorem materializeLoop_eq_runOps (oracle : Nat → Bool) (idGen : Nat → String)
    (req : CreateNodesRequest) (positions : List Position) :
    ∀ (ideas : List Idea) (i k : Nat) (w : Store) (ns : List NodeRec) (es : List EdgeRec),
    materializeLoop oracle idGen req positions i k w ns es ideas =
      (match runOps oracle k w (matOps idGen req positions i k ideas) with
       | (w2, none) =>
         (w2, .ok (ns ++ opsNodes (matOps idGen req positions i k ideas),
                   es ++ opsEdges (matOps idGen req positions i k ideas)))
       | (w2, some op) => (w2, .serverError (opFailMsg op))) := by
  intro ideas
  induction ideas with
  | nil => intro i k w ns es; simp [materializeLoop, matOps, runOps, opsNodes, opsEdges]
  | cons idea rest ih =>
    intro i k w ns es
    by_cases hp : req.parentId = ""
    · by_cases h0 : oracle k = true
      · simp [materializeLoop, matOps, runOps, hp, h0, opFailMsg]
      · have step := ih (i + 1) (k + 1)
          (applyMatOp w (.node (nodeRecFor idGen req positions i k idea)))
          (ns ++ [nodeRecFor idGen req positions i k idea]) es
        have hrec : dbCreateNode w (idGen k)
            { mindMapId := req.mindMapId, parentId := none, content := idea.content,
              positionX := (positions.getD i ⟨0, 0⟩).x,
              positionY := (positions.getD i ⟨0, 0⟩).y,
              nodeType := "idea", styleData := none, metadata := none }
            = (applyMatOp w (.node (nodeRecFor idGen req positions i k idea)),
               nodeRecFor idGen req positions i k idea) := by
          simp [dbCreateNode, applyMatOp, nodeRecFor, hp]
        simp only [materializeLoop, matOps, runOps, hp, h0, if_true, if_false,
          Bool.false_eq_true, ite_true, ite_false, if_pos, if_neg, not_false_eq_true]
        rw [hrec]
        simp only []
        rw [step]
        rcases runOps oracle (k + 1)
          (applyMatOp w (.node (nodeRecFor idGen req positions i k idea)))
          (matOps idGen req positions (i + 1) (k + 1) rest) with ⟨w2, _ | op⟩
        · simp [opsNodes, opsEdges]
        · simp
    · by_cases h0 : oracle k = true
      · simp [materializeLoop, matOps, runOps, hp, h0, opFailMsg]
      · by_cases h1 : oracle (k + 1) = true
        · simp [materializeLoop, matOps, runOps, hp, h0, h1, opFailMsg, dbCreateNode,
            applyMatOp, nodeRecFor]
        · have step := ih (i + 1) (k + 2)
            (applyMatOp (applyMatOp w (.node (nodeRecFor idGen req positions i k idea)))
              (.edge (edgeRecFor idGen req (k + 1) (idGen k))))
            (ns ++ [nodeRecFor idGen req positions i k idea])
            (es ++ [edgeRecFor idGen req (k + 1) (idGen k)])
          have hrec : dbCreateNode w (idGen k)
              { mindMapId := req.mindMapId, parentId := some req.parentId,
                content := idea.content,
                positionX := (positions.getD i ⟨0, 0⟩).x,
                positionY := (positions.getD i ⟨0, 0⟩).y,
                nodeType := "idea", styleData := none, metadata := none }
              = (applyMatOp w (.node (nodeRecFor idGen req positions i k idea)),
                 nodeRecFor idGen req positions i k idea) := by
            simp [dbCreateNode, applyMatOp, nodeRecFor, hp]
          have hrec2 : dbCreateEdge
              (applyMatOp w (.node (nodeRecFor idGen req positions i k idea)))
              (idGen (k + 1))
              { mindMapId := req.mindMapId, sourceId := req.parentId,
                targetId := (nodeRecFor idGen req positions i k idea).id,
                edgeType := "idea", styleData := none }
              = (applyMatOp (applyMatOp w (.node (nodeRecFor idGen req positions i k idea)))
                  (.edge (edgeRecFor idGen req (k + 1) (idGen k))),
                 edgeRecFor idGen req (k + 1) (idGen k)) := by
            simp [dbCreateEdge, applyMatOp, edgeRecFor, nodeRecFor]
          simp only [materializeLoop, matOps, runOps, hp, h0, h1, if_true, if_false,
            Bool.false_eq_true, ite_true, ite_false, if_pos, if_neg, not_false_eq_true]
          rw [hrec]
          simp only []
          rw [hrec2]
          simp only []
          rw [step]
          rcases runOps oracle (k + 2)
            (applyMatOp (applyMatOp w (.node (nodeRecFor idGen req positions i k idea)))
              (.edge (edgeRecFor idGen req (k + 1) (idGen k))))
            (matOps idGen req positions (i + 1) (k + 2) rest) with ⟨w2, _ | op⟩
          · simp [opsNodes, opsEdges]
          · simp

theorem runOps_no_fault (oracle : Nat → Bool) :
    ∀ (ops : List MatOp) (k : Nat) (w : Store),
    (∀ j < ops.length, oracle (k + j) = false) →
    runOps oracle k w ops = (opsApply w ops, none) := by
  intro ops
  induction ops with
  | nil => intro k w _; simp [runOps, opsApply]
  | cons op rest ih =>
    intro k w hall
    have h0 : oracle k = false := by simpa using hall 0 (by simp)
    have h2 : ∀ j < rest.length, oracle (k + 1 + j) = false := by
      intro j hj
      have := hall (j + 1) (by simpa using hj)
      rwa [show k + (j + 1) = k + 1 + j by omega] at this
    simp only [runOps, h0, Bool.false_eq_true, if_false, ite_false]
    rw [ih (k + 1) (applyMatOp w op) h2]
    rfl

theorem runOps_fault (oracle : Nat → Bool) :
    ∀ (ops : List MatOp) (k : Nat) (w : Store) (f : Nat),
    f < ops.length → oracle (k + f) = true → (∀ j < f, oracle (k + j) = false) →
    ∃ op, runOps oracle k w ops = (opsApply w (ops.take f), some op) := by
  intro ops
  induction ops with
  | nil => intro k w f hf; simp at hf
  | cons op rest ih =>
    intro k w f hf ht hprev
    match f with
    | 0 =>
      rw [Nat.add_zero] at ht
      exact ⟨op, by simp [runOps, ht, opsApply]⟩
    | f + 1 =>
      have h0 : oracle k = false := by simpa using hprev 0 (by omega)
      have ht2 : oracle (k + 1 + f) = true := by
        rwa [show k + 1 + f = k + (f + 1) by omega]
      have hprev2 : ∀ j < f, oracle (k + 1 + j) = false := by
        intro j hj
        have := hprev (j + 1) (by omega)
        rwa [show k + (j + 1) = k + 1 + j by omega] at this
      obtain ⟨op2, hop⟩ := ih (k + 1) (applyMatOp w op) f (by simpa using hf) ht2 hprev2
      refine ⟨op2, ?_⟩
      simp only [runOps, h0, Bool.false_eq_true, if_false, ite_false]
      rw [hop]
      rfl

theorem opsApply_extends :
    ∀ (l : List MatOp) (w : Store),
    ∃ ns2 es2, (opsApply w l).nodes = w.nodes ++ ns2 ∧ (opsApply w l).edges = w.edges ++ es2 := by
  intro l
  induction l with
  | nil => intro w; exact ⟨[], [], by simp [opsApply], by simp [opsApply]⟩
  | cons op rest ih =>
    intro w
    obtain ⟨ns2, es2, h1, h2⟩ := ih (applyMatOp w op)
    cases op with
    | node n =>
      refine ⟨n :: ns2, es2, ?_, ?_⟩
      · show (opsApply (applyMatOp w (.node n)) rest).nodes = _
        rw [h1]; simp [applyMatOp]
      · show (opsApply (applyMatOp w (.node n)) rest).edges = _
        rw [h2]; simp [applyMatOp]
    | edge e =>
      refine ⟨ns2, e :: es2, ?_, ?_⟩
      · show (opsApply (applyMatOp w (.edge e)) rest).nodes = _
        rw [h1]; simp [applyMatOp]
      · show (opsApply (applyMatOp w (.edge e)) rest).edges = _
        rw [h2]; simp [applyMatOp]

/-- C3: materialization of ideas into nodes and edges is sequential and
non-transactional. With no fault the whole operation sequence commits and
is returned. If the f-th row creation (node or edge INSERT) fails, the
handler stops there and surfaces a 500 error, and the visible store is
exactly the original store extended by the f operations that preceded the
failure — nothing is rolled back; in general an applied prefix only ever
appends rows. -/
theorem createNodes_partial_failure (oracle : Nat → Bool) (idGen : Nat → String)
    (cosAt sinAt : Nat → Nat → ℚ) (s : Store) (u : String)
    (req : CreateNodesRequest) (m : MindMapRec)
    (hne : req.mindMapId ≠ "")
    (hm : dbGetMindMapByID s req.mindMapId = some m)
    (hown : m.userId = u) :
    let positions := calculateNodePositions cosAt sinAt req.startX req.startY
      req.ideas.length req.layout
    let ops := matOps idGen req positions 0 0 req.ideas
    ((∀ j < ops.length, oracle j = false) →
      handlerCreateNodesFromIdeas oracle idGen cosAt sinAt s u req
        = (opsApply s ops, .ok (opsNodes ops, opsEdges ops))) ∧
    (∀ f, f < ops.length → oracle f = true → (∀ j < f, oracle j = false) →
      ∃ msg, handlerCreateNodesFromIdeas oracle idGen cosAt sinAt s u req
        = (opsApply s (ops.take f), .serverError msg)) ∧
    (∀ (l : List MatOp) (w0 : Store), ∃ ns2 es2,
      (opsApply w0 l).nodes = w0.nodes ++ ns2 ∧ (opsApply w0 l).edges = w0.edges ++ es2) := by
  intro positions ops
  have hh : handlerCreateNodesFromIdeas oracle idGen cosAt sinAt s u req
      = materializeLoop oracle idGen req positions 0 0 s [] [] req.ideas := by
    simp [handlerCreateNodesFromIdeas, hne, hm, hown]
  have hrun := materializeLoop_eq_runOps oracle idGen req positions req.ideas 0 0 s [] []
  refine ⟨?_, ?_, fun l w0 => opsApply_extends l w0⟩
  · intro hall
    rw [hh, hrun, runOps_no_fault oracle ops 0 s (fun j hj => by simpa using hall j hj)]
    simp
  · intro f hf ht hprev
    obtain ⟨op, hop⟩ := runOps_fault oracle ops 0 s f hf (by simpa using ht)
      (fun j hj => by simpa using hprev j hj)
    refine ⟨opFailMsg op, ?_⟩
    rw [hh, hrun, hop]

def reqW3 : CreateNodesRequest :=
  ⟨"mA", "na", [⟨"one", 7 / 10⟩, ⟨"two", 7 / 10⟩], 0, 0, "horizontal"⟩

def oracleW3 : Nat → Bool := fun k => k == 3

/-- Witness for C3: materializing 2 ideas under parent "na" attempts 4 row
creations (node, edge, node, edge); a fault injected at the 4th (the second
edge) surfaces a 500 and leaves exactly the first 3 created rows — both
nodes and the first edge — persisted. -/
theorem createNodes_partial_failure_witness :
    ∃ msg, handlerCreateNodesFromIdeas oracleW3 idGenW cf0 sf0 storeC5 "u1" reqW3
      = (opsApply storeC5
          ((matOps idGenW reqW3
            (calculateNodePositions cf0 sf0 reqW3.startX reqW3.startY
              reqW3.ideas.length reqW3.layout) 0 0 reqW3.ideas).take 3),
        .serverError msg) :=
  (createNodes_partial_failure oracleW3 idGenW cf0 sf0 storeC5 "u1" reqW3 mapA
    (by decide) (by decide) rfl).2.1 3 (by decide) rfl (by decide)

/-! ### LLM response normalization (tail of `generateIdeasWithOpenAI`)

`parseArr` stands for `json.Unmarshal` into `[]map[string]interface{}`:
`none` is a parse error. `JValue` models the `interface{}` values such a
map can hold; `sprintfV` is `fmt.Sprintf("%v", ·)` on them, with a missing
map key giving the nil interface, printed `<nil>`. -/

inductive JValue where
  | jnull
  | jstr : String → JValue
  | jnum : Int → JValue
  | jbool : Bool → JValue
deriving DecidableEq

abbrev JObj := List (String × JValue)

def jlookup (o : JObj) (k : String) : Option JValue :=
  (o.find? fun p => p.1 == k).map fun p => p.2

def sprintfV : Option JValue → String
  | none => "<nil>"
  | some .jnull => "<nil>"
  | some (.jstr s) => s
  | some (.jnum n) => toString n
  | some (.jbool b) => if b then "true" else "false"

/-- The Go type assertion `.(string)`. -/
def asString : Option JValue → Option String
  | some (.jstr s) => some s
  | _ => none

/-- Per-object content extraction: format field `idea` with %v; only if
that prints `<nil>` try, in order, `content`, `text`, `description`, each
accepted only when it holds a string; otherwise the content stays
`<nil>`. -/
def extractIdeaContent (o : JObj) : String :=
  let c := sprintfV (jlookup o "idea")
  if c = "<nil>" then
    match asString (jlookup o "content") with
    | some s => s
    | none =>
      match asString (jlookup o "text") with
      | some s => s
      | none =>
        match asString (jlookup o "description") with
        | some s => s
        | none => c
  else c

def mkIdea (o : JObj) : Idea := ⟨extractIdeaContent o, 7 / 10⟩

def isSpaceByte (c : Char) : Bool :=
  c == ' ' || c == '\t' || c == '\n' || c == '\x0b' || c == '\x0c' || c == '\r'

/-- `bytes.TrimSpace`. -/
def goTrimSpace (l : List Char) : List Char :=
  ((l.dropWhile isSpaceByte).reverse.dropWhile isSpaceByte).reverse

/-- `bytes.LastIndex(content, "]")`, as an Option instead of -1. -/
def lastIdxOf (c : Char) (l : List Char) : Option Nat :=
  match l.reverse.findIdx? (· == c) with
  | some j => some (l.length - 1 - j)
  | none => none

/-- The three-tier normalization of the raw LLM reply: (1) parse the whole
text as a JSON array of objects; (2) else parse the substring from the
first `[` to the last `]` (when the first `[` is strictly before the last
`]`); (3) else one idea per non-blank line, confidence 0.7. The requested
count only presizes a buffer. -/
def normalizeIdeas (parseArr : List Char → Option (List JObj)) (content : List Char)
    (_reqCount : Nat) : List Idea :=
  match parseArr content with
  | some raws => raws.map mkIdea
  | none =>
    let attempt : Option (List JObj) :=
      match content.findIdx? (· == '['), lastIdxOf ']' content with
      | some si, some ei =>
        if si < ei then parseArr ((content.drop si).take (ei + 1 - si)) else none
      | _, _ => none
    match attempt with
    | some raws => raws.map mkIdea
    | none =>
      (content.splitOn '\n').filterMap fun line =>
        let t := goTrimSpace line
        if t.length > 0 then some ⟨String.mk t, 7 / 10⟩ else none

theorem findIdx_bracket_in_embed (pfx arr sfx : List Char)
    (hpfx : ∀ c ∈ pfx, c ≠ '[') (harr : arr.head? = some '[') :
    (pfx ++ arr ++ sfx).findIdx? (· == '[') = some pfx.length := by
  obtain ⟨tail, rfl⟩ : ∃ t, arr = '[' :: t := by
    cases arr with
    | nil => simp at harr
    | cons a t => simp at harr; exact ⟨t, by rw [harr]⟩
  rw [List.append_assoc, List.findIdx?_append]
  have h1 : pfx.findIdx? (· == '[') = none := by
    rw [List.findIdx?_eq_none_iff]
    intro c hc
    simpa using hpfx c hc
  rw [h1, Option.none_or, List.cons_append, List.findIdx?_cons]
  simp

theorem lastIdx_bracket_in_embed (pfx arr sfx : List Char)
    (hsfx : ∀ c ∈ sfx, c ≠ ']') (harr : arr.getLast? = some ']') (hlen : 1 ≤ arr.length) :
    lastIdxOf ']' (pfx ++ arr ++ sfx) = some (pfx.length + arr.length - 1) := by
  obtain ⟨rt, hrev⟩ : ∃ t, arr.reverse = ']' :: t := by
    have h := List.head?_reverse arr
    rw [harr] at h
    cases hr : arr.reverse with
    | nil => rw [hr] at h; simp at h
    | cons a t => rw [hr] at h; simp at h; exact ⟨t, by rw [h]⟩
  rw [lastIdxOf, List.reverse_append, List.reverse_append, hrev]
  have h1 : sfx.reverse.findIdx? (· == ']') = none := by
    rw [List.findIdx?_eq_none_iff]
    intro c hc
    simpa using hsfx c (List.mem_reverse.mp hc)
  rw [List.findIdx?_append, h1, Option.none_or, List.cons_append, List.findIdx?_cons,
    if_pos (by decide)]
  have harl : arr.length = rt.length + 1 := by
    rw [← List.length_reverse arr, hrev]
    simp
  simp only [Option.map_some', Option.some.injEq, List.length_append, List.length_reverse,
    List.length_cons]
  omega

/-- C6: tier selection of the normalizer. (1) A text that parses as a JSON
array of objects yields one idea per element. (2) The same array embedded
in bracket-free prose falls to tier 2 — the first-`[`-to-last-`]`
substring is exactly the array — and yields identical ideas. (3) When both
JSON attempts fail the result is exactly one idea per non-blank trimmed
line, confidence 0.7. (4) Normalization is total and the requested count
never affects the result. -/
theorem normalizer_tier_selection (parseArr : List Char → Option (List JObj)) :
    (∀ content raws rc, parseArr content = some raws →
      normalizeIdeas parseArr content rc = raws.map mkIdea) ∧
    (∀ pfx arr sfx raws rc,
      parseArr (pfx ++ arr ++ sfx) = none →
      parseArr arr = some raws →
      (∀ c ∈ pfx, c ≠ '[') → (∀ c ∈ sfx, c ≠ ']') →
      arr.head? = some '[' → arr.getLast? = some ']' → 1 < arr.length →
      normalizeIdeas parseArr (pfx ++ arr ++ sfx) rc = raws.map mkIdea) ∧
    (∀ content rc,
      parseArr content = none →
      (∀ si ei, content.findIdx? (· == '[') = some si → lastIdxOf ']' content = some ei →
        si < ei → parseArr ((content.drop si).take (ei + 1 - si)) = none) →
      normalizeIdeas parseArr content rc =
        (content.splitOn '\n').filterMap fun line =>
          if (goTrimSpace line).length > 0 then some ⟨String.mk (goTrimSpace line), 7 / 10⟩
          else none) ∧
    (∀ content a b, normalizeIdeas parseArr content a = normalizeIdeas parseArr content b) := by
  refine ⟨?_, ?_, ?_, fun content a b => rfl⟩
  · intro content raws rc h
    simp [normalizeIdeas, h]
  · intro pfx arr sfx raws rc hfull harr hpfx hsfx hhead hlast hlen
    have hfi := findIdx_bracket_in_embed pfx arr sfx hpfx hhead
    have hli := lastIdx_bracket_in_embed pfx arr sfx hsfx hlast (by omega)
    have hslice : (((pfx ++ arr ++ sfx).drop pfx.length).take
        (pfx.length + arr.length - 1 + 1 - pfx.length)) = arr := by
      rw [List.append_assoc, List.drop_left' rfl,
        show pfx.length + arr.length - 1 + 1 - pfx.length = arr.length by omega,
        List.take_left]
    simp only [normalizeIdeas, hfull, hfi, hli]
    rw [if_pos (by omega), hslice, harr]
  · intro content rc h h2
    simp only [normalizeIdeas, h]
    rcases hfi : content.findIdx? (· == '[') with _ | si
    · simp [hfi]
    · rcases hei : lastIdxOf ']' content with _ | ei
      · simp [hfi, hei]
      · simp only [hfi, hei]
        by_cases hlt : si < ei
        · rw [if_pos hlt, h2 si ei hfi hei hlt]
        · rw [if_neg hlt]

def arrW : List Char := "[x]".toList

def objW : JObj := [("idea", .jstr "x")]

def parseW : List Char → Option (List JObj) := fun l => if l = arrW then some [objW] else none

/-- Witness for C6: a toy parser recognizing exactly the text `[x]` as the
one-object array. Tier 1 on `[x]`, tier 2 on `see [x] ok`, and tier 3 on
the bracket-free two-line prose. -/
theorem normalizer_tier_selection_witness :
    normalizeIdeas parseW arrW 5 = [⟨"x", 7 / 10⟩] ∧
    normalizeIdeas parseW ("see ".toList ++ arrW ++ " ok".toList) 5 = [⟨"x", 7 / 10⟩] ∧
    normalizeIdeas parseW "a\n\nb".toList 5 = [⟨"a", 7 / 10⟩, ⟨"b", 7 / 10⟩] := by
  have h := normalizer_tier_selection parseW
  refine ⟨(h.1 arrW [objW] 5 (by decide)).trans (by rfl), ?_, ?_⟩
  · exact (h.2.1 "see ".toList arrW " ok".toList [objW] 5 (by decide) (by decide)
      (by decide) (by decide) (by decide) (by decide) (by decide)).trans (by rfl)
  · refine (h.2.2.1 "a\n\nb".toList 5 (by decide) ?_).trans (by rfl)
    intro si ei hsi hei hlt
    rw [show (("a\n\nb".toList).findIdx? (· == '[')) = none from by decide] at hsi
    cases hsi

def objC7 : JObj := [("content", .jnum 42), ("text", .jstr "hi")]

def cexC7 : List Char := "[42]".toList

def parseC7 : List Char → Option (List JObj) := fun l => if l = cexC7 then some [objC7] else none

/-- C7 counterexample: in the object `("content" ↦ 42, "text" ↦ "hi")` the
field `idea` is absent and `content` is the first present field, whose %v
formatting is "42"; yet the normalizer produces the idea "hi", because the
`content`/`text`/`description` fallbacks accept only string-typed values —
"the first present field wins" does not hold on the code. -/
theorem extract_first_present_cex :
    jlookup objC7 "idea" = none ∧
    jlookup objC7 "content" = some (.jnum 42) ∧
    sprintfV (some (.jnum 42)) = "42" ∧
    normalizeIdeas parseC7 cexC7 5 = [⟨"hi", 7 / 10⟩] ∧
    ("hi" : String) ≠ "42" :=
  ⟨by decide, by decide, by decide, by rfl, by decide⟩

/-- The extraction rule phrased from the spec side: take the %v-formatted
`idea` field if it does not print `<nil>`; otherwise the first of
`content`, `text`, `description` that holds a STRING value; otherwise
`<nil>`. -/
def specExtractContent (o : JObj) : String :=
  if sprintfV (jlookup o "idea") ≠ "<nil>" then sprintfV (jlookup o "idea")
  else ((["content", "text", "description"].filterMap
      fun f => asString (jlookup o f)).head?).getD "<nil>"

theorem extractIdeaContent_eq_spec (o : JObj) :
    extractIdeaContent o = specExtractContent o := by
  by_cases hnil : sprintfV (jlookup o "idea") = "<nil>"
  · rcases h1 : asString (jlookup o "content") with _ | s1 <;>
      rcases h2 : asString (jlookup o "text") with _ | s2 <;>
        rcases h3 : asString (jlookup o "description") with _ | s3 <;>
          simp [extractIdeaContent, specExtractContent, hnil, h1, h2, h3]
  · simp [extractIdeaContent, specExtractContent, hnil]

/-- C7 amended: whenever a JSON array parse succeeds (tier 1; tier 2 hands
the same parsed array to the same conversion), every resulting idea's
content is the %v formatting of the `idea` field when that is present and
does not format as `<nil>`, else the first string-valued field among
`content`, `text`, `description`, else the literal `<nil>`; and every
resulting idea has confidence 0.7. -/
theorem extract_content_rule (parseArr : List Char → Option (List JObj))
    (content : List Char) (raws : List JObj) (rc : Nat)
    (h : parseArr content = some raws) :
    normalizeIdeas parseArr content rc
      = raws.map fun o => ⟨specExtractContent o, 7 / 10⟩ := by
  simp only [normalizeIdeas, h]
  exact List.map_congr_left fun o _ => by
    rw [mkIdea, extractIdeaContent_eq_spec]

/-- Witness for C7 (amended) with the toy parser of the counterexample: the
number-valued `content` is skipped and the string-valued `text` wins. -/
theorem extract_content_rule_witness :
    normalizeIdeas parseC7 cexC7 5
      = [objC7].map (fun o => ⟨specExtractContent o, 7 / 10⟩) ∧
    specExtractContent objC7 = "hi" :=
  ⟨extract_content_rule parseC7 cexC7 [objC7] 5 (by decide), by decide⟩

/-- C8 counterexample: a requested count of 3 is positive but below 5 and
passes through unchanged, so the count used for prompting does not lie in
[5, 10]. -/
theorem clampCount_three_not_clamped : clampCount 3 = 3 ∧ ¬ 5 ≤ clampCount 3 := by decide

/-- C8 amended: a non-positive requested count becomes 5 and a count above
10 becomes 10, but a count already in [1, 10] passes through unchanged, so
the count used for prompting lies in the inclusive range [1, 10] (not
[5, 10]). -/
theorem clampCount_range : ∀ c : Int,
    clampCount c = (if c ≤ 0 then 5 else if c > 10 then 10 else c) ∧
    1 ≤ clampCount c ∧ clampCount c ≤ 10 := by
  intro c
  refine ⟨?_, ?_, ?_⟩ <;> (dsimp only [clampCount]; split_ifs <;> omega)

end IdeaVisualMap
